import Mathlib

/-!
Shallow embedding of the semver-action version-computation core
(src/index.ts) and proofs of the specification claims about it.

The TypeScript source is embedded function by function:
* `parseSemver`    — regex `^(\d+)\.(\d+)\.(\d+)$` on the trimmed tag,
  with the JS falsiness check `if (!tag) return null` first;
* `formatSemver`   — template `"{major}.{minor}.{patch}"`;
* `normalizeUpgradeType` — `(x || "PATCH").trim().toUpperCase()` then exact
  comparison with `"MAJOR"` / `"MINOR"`, everything else `"PATCH"`;
* `tagExists`      — `git rev-parse` wrapped in try/catch, catch gives `false`;
* `bumpForUniqueness` — the `while (await tagExists(v)) v = bump(v)` loop,
  embedded with explicit fuel (the source loop is unbounded);
* `run`            — dispatch on the trimmed `baseBranch === "main"`,
  embedded as the pure function `runVersion` over a tag-store oracle.

JS numbers produced by `+digits` on digit strings are modelled as `Nat`;
the strings involved are far below the 2^53 precision boundary and the
spec treats the components as exact non-negative integers.
-/

/-- Version triple, the `Semver` record type of the source. -/
structure Semver where
  major : Nat
  minor : Nat
  patch : Nat
deriving DecidableEq, Repr

/-- Decimal digit character for a value below ten (values ten and above
clamp to the digit nine; `natToDecimal` only calls it with `m < 10`). -/
def decDigit (m : Nat) : Char :=
  match m with
  | 0 => '0'
  | 1 => '1'
  | 2 => '2'
  | 3 => '3'
  | 4 => '4'
  | 5 => '5'
  | 6 => '6'
  | 7 => '7'
  | 8 => '8'
  | _ => '9'

/-- Fuel-driven digit accumulator: with fuel above `n` it prepends the
decimal digits of `n` to `acc`. Structural recursion on the fuel keeps the
definition kernel-reducible. -/
def natToDecimalGo : Nat → Nat → List Char → List Char
  | 0, _, acc => acc
  | fuel + 1, n, acc =>
    if n < 10 then decDigit n :: acc
    else natToDecimalGo fuel (n / 10) (decDigit (n % 10) :: acc)

/-- Canonical decimal numeral of a natural number, as JS renders a
non-negative integer with the template literal. -/
def natToDecimal (n : Nat) : List Char :=
  natToDecimalGo (n + 1) n []

/-- String form of the canonical decimal numeral. -/
def natDecimalStr (n : Nat) : String :=
  String.mk (natToDecimal n)

/-- Numeric value of a digit string, as the JS unary plus computes it on a
string of decimal digits. -/
def digitsToNat (ds : List Char) : Nat :=
  ds.foldl (fun a c => 10 * a + (c.toNat - 48)) 0

/-- Whitespace stripped by `String.prototype.trim`: ECMAScript WhiteSpace
and LineTerminator code points. -/
def isJsWhitespace (c : Char) : Bool :=
  c == ' ' || c == '\t' || c == '\n' || c == '\r' ||
  c == '\x0b' || c == '\x0c' || c == '\u00A0' || c == '\uFEFF' ||
  c == '\u1680' || (decide (0x2000 ≤ c.toNat) && decide (c.toNat ≤ 0x200A)) ||
  c == '\u2028' || c == '\u2029' || c == '\u202F' || c == '\u205F' ||
  c == '\u3000'

/-- The JS `trim()`: drop whitespace from both ends. -/
def jsTrim (s : String) : String :=
  String.mk (((s.data.dropWhile isJsWhitespace).reverse.dropWhile isJsWhitespace).reverse)

/-- Greedy digit run: the `\d+` regex atom. Returns the leading digits and
the rest of the input. -/
def takeDigits : List Char → List Char × List Char
  | [] => ([], [])
  | c :: cs =>
    if c.isDigit then
      let p := takeDigits cs
      (c :: p.1, p.2)
    else ([], c :: cs)

/-- Anchored match of `^(\d+)\.(\d+)\.(\d+)$` (the source's `SEMVER_RE`),
returning the three capture groups. Greedy `\d+` runs are equivalent to
maximal digit runs here because `.` is not a digit and the match is
anchored at both ends. -/
def semverGroups (cs : List Char) : Option (List Char × List Char × List Char) :=
  let p1 := takeDigits cs
  if p1.1 = [] then none
  else if p1.2.head? = some '.' then
    let p2 := takeDigits p1.2.tail
    if p2.1 = [] then none
    else if p2.2.head? = some '.' then
      let p3 := takeDigits p2.2.tail
      if p3.1 = [] then none
      else if p3.2 = [] then some (p1.1, p2.1, p3.1) else none
    else none
  else none

/-- The source's `parseSemver`: `null`/`undefined` and the empty string are
falsy and give `null`; otherwise the trimmed tag must match `SEMVER_RE`
exactly, and the captures convert with unary plus. -/
def parseSemver : Option String → Option Semver
  | none => none
  | some s =>
    if s = "" then none
    else
      match semverGroups (jsTrim s).data with
      | some (d1, d2, d3) => some ⟨digitsToNat d1, digitsToNat d2, digitsToNat d3⟩
      | none => none

/-- The source's `formatSemver`: the template `"{major}.{minor}.{patch}"`. -/
def formatSemver (s : Semver) : String :=
  natDecimalStr s.major ++ "." ++ natDecimalStr s.minor ++ "." ++ natDecimalStr s.patch

/-- Upgrade kinds after normalization. -/
inductive UpgradeType
  | MAJOR
  | MINOR
  | PATCH
deriving DecidableEq, Repr

/-- The source's `normalizeUpgradeType`: `(x || "PATCH").trim().toUpperCase()`
compared against the two literals, defaulting to `PATCH`. `toUpperCase` is
embedded as `Char.toUpper` applied characterwise; it agrees with the JS
function on the ASCII letters the comparisons involve. -/
def normalizeUpgradeType (x : Option String) : UpgradeType :=
  let raw := match x with
    | none => "PATCH"
    | some s => if s = "" then "PATCH" else s
  let up := String.mk ((jsTrim raw).data.map Char.toUpper)
  if up = "MAJOR" then .MAJOR
  else if up = "MINOR" then .MINOR
  else .PATCH

/-- Main-line computation from `run` (the `baseBranch === "main"` branch,
before the uniqueness loop): parse `lastTag` with default `{0,1,0}`, then
apply the `switch` on the normalized upgrade type. -/
def computeNextMainVersion (lastTag upgradeKind : Option String) : Semver :=
  let parsed := (parseSemver lastTag).getD ⟨0, 1, 0⟩
  match normalizeUpgradeType upgradeKind with
  | .MAJOR => ⟨parsed.major + 1, 0, 0⟩
  | .MINOR => ⟨parsed.major, parsed.minor + 1, 0⟩
  | .PATCH => ⟨parsed.major, parsed.minor, parsed.patch + 1⟩

/-- Literal-prefix removal: `dropExact p s` is `some r` when `s = p ++ r`. -/
def dropExact : List Char → List Char → Option (List Char)
  | [], s => some s
  | _ :: _, [] => none
  | p :: ps, c :: cs => if p = c then dropExact ps cs else none

/-- The literal chunk `-develop.` that both develop-tag regexes contain. -/
def devSep : List Char := ['-', 'd', 'e', 'v', 'e', 'l', 'o', 'p', '.']

/-- Characters the regex `.` metacharacter matches in JS: everything except
the four line terminators. -/
def isRegexDot (c : Char) : Bool :=
  !(c == '\n' || c == '\r' || c == '\u2028' || c == '\u2029')

/-- Tail test for the develop-advance regex at one position: the input must
start with `-develop.` and the remainder must be one or more digits running
to the end (`(\d+)$`). -/
def devTailOk (cs : List Char) : Option (List Char) :=
  match dropExact devSep cs with
  | some rest =>
    if rest = [] then none
    else if rest.all Char.isDigit then some rest else none
  | none => none

/-- Scanner for the lazy regex `^(.+?-develop\.)(\d+)$` used by the
pre-release advance lambda: the lazy `.+?` makes the engine accept the
leftmost position with at least one preceding character where `-develop.`
is followed by digits to the end. `acc` holds the reversed characters the
`.+?` has consumed so far. -/
def devMatchAux : List Char → List Char → Option (List Char × List Char)
  | _, [] => none
  | acc, c :: cs =>
    match devTailOk (c :: cs) with
    | some rest =>
      if acc = [] then (if isRegexDot c then devMatchAux (c :: acc) cs else none)
      else some (acc.reverse ++ devSep, rest)
    | none => if isRegexDot c then devMatchAux (c :: acc) cs else none

/-- Full match of `^(.+?-develop\.)(\d+)$`, returning the two captures. -/
def devMatch (cs : List Char) : Option (List Char × List Char) :=
  devMatchAux [] cs

/-- The main-line advance lambda of `run`: rematch `SEMVER_RE`, keep the
major and minor capture strings verbatim and increment the numeric patch.
The TS non-null assertion on the match would throw on a non-matching
candidate; that unreachable-by-construction branch returns the input. -/
def mainAdvance (v : String) : String :=
  match semverGroups v.data with
  | some (d1, d2, d3) =>
    String.mk (d1 ++ '.' :: d2 ++ '.' :: natToDecimal (digitsToNat d3 + 1))
  | none => v

/-- The pre-release advance lambda of `run`: rematch the develop pattern,
keep the `{base}-develop.` capture verbatim and increment the numeric
build. The non-null assertion branch again returns the input. -/
def devAdvance (v : String) : String :=
  match devMatch v.data with
  | some (g1, ds) => String.mk (g1 ++ natToDecimal (digitsToNat ds + 1))
  | none => v

/-- The dynamically built develop regex
`^{maj}\.{min}\.{pat}-develop\.(\d+)$` of `run`, applied to a candidate:
the literal prefix is the formatted base followed by `-develop.`, and the
remainder must be one or more digits. Returns the numeric build capture. -/
def devTagMatch (base : Semver) (s : String) : Option Nat :=
  match dropExact (formatSemver base ++ "-develop.").data s.data with
  | some rest =>
    if rest = [] then none
    else if rest.all Char.isDigit then some (digitsToNat rest) else none
  | none => none

/-- Pre-release computation from `run` (the non-main branch, before the
uniqueness loop): base from `lastMainTag` with default `{0,1,0}`, build
from `lastDevelopTag` when it matches the develop pattern for that exact
base, then `build + 1`. -/
def computeNextPreReleaseVersion (lastMainTag lastDevelopTag : Option String) :
    Semver × Nat :=
  let mainBase := (parseSemver lastMainTag).getD ⟨0, 1, 0⟩
  let build := (devTagMatch mainBase (jsTrim (lastDevelopTag.getD ""))).getD 0
  (mainBase, build + 1)

/-- Outcome of one tag-store query: the spawned `git rev-parse` either
resolves with an exit code or rejects (store unreachable, malformed ref,
spawn failure). -/
inductive StoreResult
  | exit (code : Nat)
  | failure
deriving DecidableEq

/-- The source's `tagExists`: the query runs inside `try`/`catch`; a
rejection is caught and reported as `false`, otherwise the tag exists
exactly when the exit code is zero. -/
def tagExists (query : String → StoreResult) (tag : String) : Bool :=
  match query tag with
  | .exit c => c == 0
  | .failure => false

/-- The source's `bumpForUniqueness` loop
`while (await tagExists(v)) v = bump(v)`, with explicit fuel standing in
for the unbounded iteration: `none` means the loop was still running when
the fuel ran out. -/
def bumpForUniqueness (te : String → Bool) (bump : String → String) :
    Nat → String → Option String
  | 0, v => if te v then none else some v
  | n + 1, v => if te v then bumpForUniqueness te bump n (bump v) else some v

/-- The two branches of `run`. -/
inductive RunPath
  | mainLine
  | preRelease
deriving DecidableEq

/-- Branch dispatch of `run`: the `baseBranch` input is trimmed on intake
and compared with the literal `"main"`. -/
def dispatchPath (baseBranch : String) : RunPath :=
  if jsTrim baseBranch = "main" then .mainLine else .preRelease

/-- The whole of `run` as a pure function over the tag-store oracle, fuel
for the uniqueness loop, and the five string inputs (absent optional
inputs are `none`). Returns the emitted `version` output. -/
def runVersion (query : String → StoreResult) (fuel : Nat) (baseBranch : String)
    (upgradeType lastTag lastMainTag lastDevelopTag : Option String) :
    Option String :=
  match dispatchPath baseBranch with
  | .mainLine =>
    bumpForUniqueness (tagExists query) mainAdvance fuel
      (formatSemver (computeNextMainVersion lastTag upgradeType))
  | .preRelease =>
    let r := computeNextPreReleaseVersion lastMainTag lastDevelopTag
    bumpForUniqueness (tagExists query) devAdvance fuel
      (formatSemver r.1 ++ "-develop." ++ natDecimalStr r.2)

/-- Shape predicate used to state the claims about `SEMVER_RE`: three
nonempty digit runs separated by literal dots, spanning the whole input. -/
def semverShape (cs : List Char) : Prop :=
  ∃ d1 d2 d3 : List Char,
    d1 ≠ [] ∧ d2 ≠ [] ∧ d3 ≠ [] ∧
    d1.all Char.isDigit = true ∧ d2.all Char.isDigit = true ∧
    d3.all Char.isDigit = true ∧
    cs = d1 ++ '.' :: (d2 ++ '.' :: d3)

/-- Number of literal dots in a character list. -/
def dotCount (cs : List Char) : Nat :=
  (cs.filter (fun c => c == '.')).length

example : parseSemver (some "2.3.4") = some ⟨2, 3, 4⟩ := by decide
example : parseSemver (some "01.2.3") = some ⟨1, 2, 3⟩ := by decide
example : parseSemver (some " 1.2.3 ") = some ⟨1, 2, 3⟩ := by decide
example : parseSemver (some "1.2") = none := by decide
example : parseSemver (some "") = none := by decide
example : formatSemver ⟨1, 22, 3⟩ = "1.22.3" := by decide
example : computeNextMainVersion (some "2.3.4") (some "MAJOR") = ⟨3, 0, 0⟩ := by decide
example : computeNextMainVersion (some "2.3.4") (some "garbage") = ⟨2, 3, 5⟩ := by decide
example : computeNextMainVersion none (some "minor") = ⟨0, 2, 0⟩ := by decide
example : mainAdvance "1.2.1" = "1.2.2" := by decide
example : mainAdvance "01.02.9" = "01.02.10" := by decide
example : devAdvance "1.2.0-develop.5" = "1.2.0-develop.6" := by decide
example : devAdvance "0.1.0-develop.9" = "0.1.0-develop.10" := by decide
example : computeNextPreReleaseVersion (some "1.2.0") (some "1.2.0-develop.5") = (⟨1, 2, 0⟩, 6) := by decide
example : computeNextPreReleaseVersion (some "1.2.0") (some "1.1.0-develop.9") = (⟨1, 2, 0⟩, 1) := by decide
example : computeNextPreReleaseVersion none none = (⟨0, 1, 0⟩, 1) := by decide
example : runVersion (fun _ => .failure) 0 "develop" none none none none = some "0.1.0-develop.1" := by decide
example : runVersion (fun t => if t = "1.2.1" || t = "1.2.2" then .exit 0 else .exit 1) 5 "main" none (some "1.2.0") none none = some "1.2.3" := by decide
example : runVersion (fun _ => .failure) 0 " main" none (some "1.0.0") none none = some "1.0.1" := by decide

/-! ## Auxiliary lemmas -/

theorem strData_append (a b : String) : (a ++ b).data = a.data ++ b.data := by
  cases a; cases b; rfl

theorem decDigit_isDigit {m : Nat} (h : m < 10) : (decDigit m).isDigit = true := by
  interval_cases m <;> decide

theorem decDigit_toNat {m : Nat} (h : m < 10) : (decDigit m).toNat - 48 = m := by
  interval_cases m <;> decide

theorem natToDecimalGo_acc (fuel : Nat) :
    ∀ n acc, natToDecimalGo fuel n acc = natToDecimalGo fuel n [] ++ acc := by
  induction fuel with
  | zero => intro n acc; rfl
  | succ f ih =>
    intro n acc
    by_cases h : n < 10
    · simp [natToDecimalGo, h]
    · simp only [natToDecimalGo, if_neg h]
      rw [ih (n / 10) (decDigit (n % 10) :: acc), ih (n / 10) [decDigit (n % 10)]]
      simp

theorem natToDecimalGo_fuel :
    ∀ n f1 f2, n < f1 → n < f2 → natToDecimalGo f1 n [] = natToDecimalGo f2 n [] := by
  intro n
  induction n using Nat.strong_induction_on with
  | _ n ih =>
    intro f1 f2 h1 h2
    cases f1 with
    | zero => omega
    | succ g1 =>
      cases f2 with
      | zero => omega
      | succ g2 =>
        by_cases h : n < 10
        · simp [natToDecimalGo, h]
        · simp only [natToDecimalGo, if_neg h]
          rw [natToDecimalGo_acc g1, natToDecimalGo_acc g2,
            ih (n / 10) (by omega) g1 g2 (by omega) (by omega)]

theorem natToDecimal_lt10 {n : Nat} (h : n < 10) : natToDecimal n = [decDigit n] := by
  simp [natToDecimal, natToDecimalGo, h]

theorem natToDecimal_ge10 {n : Nat} (h : 10 ≤ n) :
    natToDecimal n = natToDecimal (n / 10) ++ [decDigit (n % 10)] := by
  unfold natToDecimal
  have h1 : natToDecimalGo (n + 1) n [] = natToDecimalGo n (n / 10) [decDigit (n % 10)] := by
    simp [natToDecimalGo, Nat.not_lt.mpr h]
  rw [h1, natToDecimalGo_acc,
    natToDecimalGo_fuel (n / 10) n (n / 10 + 1) (by omega) (by omega)]

theorem natToDecimal_ne_nil (n : Nat) : natToDecimal n ≠ [] := by
  by_cases h : n < 10
  · rw [natToDecimal_lt10 h]; simp
  · rw [natToDecimal_ge10 (by omega)]; simp

theorem natToDecimal_mem (n : Nat) : ∀ c ∈ natToDecimal n, c.isDigit = true := by
  induction n using Nat.strong_induction_on with
  | _ n ih =>
    by_cases h : n < 10
    · rw [natToDecimal_lt10 h]
      intro c hc
      simp only [List.mem_singleton] at hc
      subst hc
      exact decDigit_isDigit h
    · rw [natToDecimal_ge10 (by omega)]
      intro c hc
      rcases List.mem_append.mp hc with hc | hc
      · exact ih (n / 10) (by omega) c hc
      · simp only [List.mem_singleton] at hc
        subst hc
        exact decDigit_isDigit (by omega)

theorem natToDecimal_all (n : Nat) : (natToDecimal n).all Char.isDigit = true :=
  List.all_eq_true.mpr (natToDecimal_mem n)

theorem digitsToNat_append_digit (xs : List Char) (c : Char) :
    digitsToNat (xs ++ [c]) = 10 * digitsToNat xs + (c.toNat - 48) := by
  simp [digitsToNat, List.foldl_append]

theorem digitsToNat_natToDecimal (n : Nat) : digitsToNat (natToDecimal n) = n := by
  induction n using Nat.strong_induction_on with
  | _ n ih =>
    by_cases h : n < 10
    · rw [natToDecimal_lt10 h]
      simpa [digitsToNat] using decDigit_toNat h
    · rw [natToDecimal_ge10 (by omega), digitsToNat_append_digit,
        ih (n / 10) (by omega), decDigit_toNat (show n % 10 < 10 by omega)]
      omega

theorem isDigit_ne_dot {c : Char} (h : c.isDigit = true) : c ≠ '.' := by
  intro he; subst he; exact absurd h (by decide)

theorem isDigit_ne_dash {c : Char} (h : c.isDigit = true) : c ≠ '-' := by
  intro he; subst he; exact absurd h (by decide)

theorem isDigit_regexDot {c : Char} (h : c.isDigit = true) : isRegexDot c = true := by
  have h1 : c ≠ '\n' := by intro he; subst he; exact absurd h (by decide)
  have h2 : c ≠ '\r' := by intro he; subst he; exact absurd h (by decide)
  have h3 : c ≠ '\u2028' := by intro he; subst he; exact absurd h (by decide)
  have h4 : c ≠ '\u2029' := by intro he; subst he; exact absurd h (by decide)
  simp [isRegexDot, h1, h2, h3, h4]

theorem takeDigits_all (ds : List Char) (h : ds.all Char.isDigit = true) :
    takeDigits ds = (ds, []) := by
  induction ds with
  | nil => rfl
  | cons c cs ih =>
    simp only [List.all_cons, Bool.and_eq_true] at h
    simp [takeDigits, h.1, ih h.2]

theorem takeDigits_append (ds : List Char) (c : Char) (r : List Char)
    (h : ds.all Char.isDigit = true) (hc : c.isDigit = false) :
    takeDigits (ds ++ c :: r) = (ds, c :: r) := by
  induction ds with
  | nil => simp [takeDigits, hc]
  | cons d dsx ih =>
    simp only [List.all_cons, Bool.and_eq_true] at h
    simp [takeDigits, h.1, ih h.2]

theorem takeDigits_split : ∀ cs : List Char, (takeDigits cs).1 ++ (takeDigits cs).2 = cs
  | [] => rfl
  | c :: cs => by
    cases hcd : c.isDigit
    · simp [takeDigits, hcd]
    · simp [takeDigits, hcd, takeDigits_split cs]

theorem takeDigits_fst_digits : ∀ cs : List Char, (takeDigits cs).1.all Char.isDigit = true
  | [] => rfl
  | c :: cs => by
    cases hcd : c.isDigit
    · simp [takeDigits, hcd]
    · simp [takeDigits, hcd, takeDigits_fst_digits cs]

theorem semverGroups_complete (d1 d2 d3 : List Char)
    (h1 : d1 ≠ []) (h2 : d2 ≠ []) (h3 : d3 ≠ [])
    (g1 : d1.all Char.isDigit = true) (g2 : d2.all Char.isDigit = true)
    (g3 : d3.all Char.isDigit = true) :
    semverGroups (d1 ++ '.' :: (d2 ++ '.' :: d3)) = some (d1, d2, d3) := by
  have t1 : takeDigits (d1 ++ '.' :: (d2 ++ '.' :: d3)) = (d1, '.' :: (d2 ++ '.' :: d3)) :=
    takeDigits_append _ _ _ g1 (by decide)
  have t2 : takeDigits (d2 ++ '.' :: d3) = (d2, '.' :: d3) :=
    takeDigits_append _ _ _ g2 (by decide)
  have t3 : takeDigits d3 = (d3, []) := takeDigits_all _ g3
  simp [semverGroups, t1, t2, t3, h1, h2, h3]

theorem semverGroups_sound {cs d1 d2 d3 : List Char}
    (h : semverGroups cs = some (d1, d2, d3)) :
    cs = d1 ++ '.' :: (d2 ++ '.' :: d3) ∧
    d1 ≠ [] ∧ d2 ≠ [] ∧ d3 ≠ [] ∧
    d1.all Char.isDigit = true ∧ d2.all Char.isDigit = true ∧
    d3.all Char.isDigit = true := by
  unfold semverGroups at h
  dsimp only at h
  split at h
  · exact absurd h (by simp)
  split at h
  case isFalse => exact absurd h (by simp)
  split at h
  · exact absurd h (by simp)
  split at h
  case isFalse => exact absurd h (by simp)
  split at h
  · exact absurd h (by simp)
  split at h
  case isFalse => exact absurd h (by simp)
  rename_i hne1 hdot1 hne2 hdot2 hne3 hnil3
  obtain ⟨rfl, rfl, rfl⟩ : (takeDigits cs).1 = d1 ∧
      (takeDigits (takeDigits cs).2.tail).1 = d2 ∧
      (takeDigits (takeDigits (takeDigits cs).2.tail).2.tail).1 = d3 := by
    have := Option.some.inj h
    exact ⟨congrArg (fun t => t.1) this, congrArg (fun t => t.2.1) this,
      congrArg (fun t => t.2.2) this⟩
  refine ⟨?_, hne1, hne2, hne3, takeDigits_fst_digits cs,
    takeDigits_fst_digits _, takeDigits_fst_digits _⟩
  have s1 := takeDigits_split cs
  have s2 := takeDigits_split (takeDigits cs).2.tail
  have s3 := takeDigits_split (takeDigits (takeDigits cs).2.tail).2.tail
  have c1 : (takeDigits cs).2 = '.' :: (takeDigits cs).2.tail := by
    cases hx : (takeDigits cs).2 with
    | nil => rw [hx] at hdot1; exact absurd hdot1 (by simp)
    | cons a t =>
      rw [hx] at hdot1
      simp only [List.head?_cons, Option.some.injEq] at hdot1
      simp [hdot1]
  have c2 : (takeDigits (takeDigits cs).2.tail).2 =
      '.' :: (takeDigits (takeDigits cs).2.tail).2.tail := by
    cases hx : (takeDigits (takeDigits cs).2.tail).2 with
    | nil => rw [hx] at hdot2; exact absurd hdot2 (by simp)
    | cons a t =>
      rw [hx] at hdot2
      simp only [List.head?_cons, Option.some.injEq] at hdot2
      simp [hdot2]
  rw [hnil3, List.append_nil] at s3
  rw [c1] at s1
  rw [c2] at s2
  rw [s3, s2]
  exact s1.symm

theorem dropExact_self_append : ∀ p r : List Char, dropExact p (p ++ r) = some r
  | [], _ => rfl
  | c :: ps, r => by simp [dropExact, dropExact_self_append ps r]

theorem dropExact_eq_some : ∀ (p s r : List Char), dropExact p s = some r → s = p ++ r := by
  intro p
  induction p with
  | nil =>
    intro s r h
    simpa [dropExact] using Option.some.inj h
  | cons c ps ih =>
    intro s r h
    cases s with
    | nil => exact absurd h (by simp [dropExact])
    | cons a t =>
      by_cases hca : c = a
      · subst hca
        simp only [dropExact, if_pos rfl] at h
        simp [ih t r h]
      · simp [dropExact, hca] at h

theorem devTailOk_self {D : List Char} (hne : D ≠ []) (hdig : D.all Char.isDigit = true) :
    devTailOk (devSep ++ D) = some D := by
  simp [devTailOk, dropExact_self_append, hne, hdig]

theorem devTailOk_ne_dash {c : Char} (hc : c ≠ '-') (cs : List Char) :
    devTailOk (c :: cs) = none := by
  simp [devTailOk, devSep, dropExact, Ne.symm hc]

theorem devMatchAux_cons (acc : List Char) (c : Char) (cs : List Char) :
    devMatchAux acc (c :: cs) =
      match devTailOk (c :: cs) with
      | some rest =>
        if acc = [] then (if isRegexDot c then devMatchAux (c :: acc) cs else none)
        else some (acc.reverse ++ devSep, rest)
      | none => if isRegexDot c then devMatchAux (c :: acc) cs else none := rfl

theorem devMatchAux_adv :
    ∀ (pre acc D : List Char),
      (∀ c ∈ pre, c ≠ '-' ∧ isRegexDot c = true) →
      (acc ≠ [] ∨ pre ≠ []) →
      D ≠ [] → D.all Char.isDigit = true →
      devMatchAux acc (pre ++ devSep ++ D) = some ((acc.reverse ++ pre) ++ devSep, D) := by
  intro pre
  induction pre with
  | nil =>
    intro acc D _ hne hD hdig
    have hacc : acc ≠ [] := by
      rcases hne with hne | hne
      · exact hne
      · exact absurd rfl hne
    cases acc with
    | nil => exact absurd rfl hacc
    | cons a as =>
      have ht : devTailOk (devSep ++ D) = some D := devTailOk_self hD hdig
      have hsplit : ([] : List Char) ++ devSep ++ D =
          '-' :: (['d', 'e', 'v', 'e', 'l', 'o', 'p', '.'] ++ D) := by
        simp [devSep]
      have ht2 : devTailOk ('-' :: (['d', 'e', 'v', 'e', 'l', 'o', 'p', '.'] ++ D)) = some D := by
        simpa [devSep] using ht
      rw [hsplit, devMatchAux_cons, ht2]
      simp
  | cons c pre' ih =>
    intro acc D hpre hne hD hdig
    have hc := hpre c (by simp)
    have hsplit : (c :: pre') ++ devSep ++ D = c :: (pre' ++ devSep ++ D) := by simp
    have ht : devTailOk (c :: (pre' ++ devSep ++ D)) = none := devTailOk_ne_dash hc.1 _
    have hr := ih (c :: acc) D (fun x hx => hpre x (by simp [hx])) (Or.inl (by simp)) hD hdig
    rw [hsplit, devMatchAux_cons, ht]
    simp only [hc.2, if_true]
    rw [hr]
    simp

theorem devMatch_adv (pre D : List Char)
    (hpre : ∀ c ∈ pre, c ≠ '-' ∧ isRegexDot c = true) (hne : pre ≠ [])
    (hD : D ≠ []) (hdig : D.all Char.isDigit = true) :
    devMatch (pre ++ devSep ++ D) = some (pre ++ devSep, D) := by
  have := devMatchAux_adv pre [] D hpre (Or.inr hne) hD hdig
  simpa [devMatch] using this

theorem dotCount_shape {cs : List Char} (h : semverShape cs) : 2 ≤ dotCount cs := by
  obtain ⟨d1, d2, d3, -, -, -, -, -, -, rfl⟩ := h
  simp [dotCount, List.filter_append]
  omega

theorem formatSemver_data (v : Semver) :
    (formatSemver v).data =
      natToDecimal v.major ++ '.' :: (natToDecimal v.minor ++ '.' :: natToDecimal v.patch) := by
  simp only [formatSemver, strData_append]
  simp [natDecimalStr, show (".").data = ['.'] from rfl]

theorem formatSemver_data_ne_nil (v : Semver) : (formatSemver v).data ≠ [] := by
  rw [formatSemver_data]
  rcases hx : natToDecimal v.major with _ | ⟨a, t⟩
  · exact absurd hx (natToDecimal_ne_nil _)
  · simp

theorem formatSemver_mem (v : Semver) :
    ∀ c ∈ (formatSemver v).data, c ≠ '-' ∧ isRegexDot c = true := by
  rw [formatSemver_data]
  intro c hc
  simp only [List.mem_append, List.mem_cons] at hc
  rcases hc with h | h | h | h | h
  · exact ⟨isDigit_ne_dash (natToDecimal_mem _ c h), isDigit_regexDot (natToDecimal_mem _ c h)⟩
  · subst h; exact ⟨by decide, by decide⟩
  · exact ⟨isDigit_ne_dash (natToDecimal_mem _ c h), isDigit_regexDot (natToDecimal_mem _ c h)⟩
  · subst h; exact ⟨by decide, by decide⟩
  · exact ⟨isDigit_ne_dash (natToDecimal_mem _ c h), isDigit_regexDot (natToDecimal_mem _ c h)⟩

theorem devCandidate_data (v : Semver) (m : Nat) :
    (formatSemver v ++ "-develop." ++ natDecimalStr m).data =
      (formatSemver v).data ++ devSep ++ natToDecimal m := by
  simp only [strData_append]
  congr 1

theorem devAdvance_step (v : Semver) (m : Nat) :
    devAdvance (formatSemver v ++ "-develop." ++ natDecimalStr m) =
      formatSemver v ++ "-develop." ++ natDecimalStr (m + 1) := by
  have hm : devMatch ((formatSemver v).data ++ devSep ++ natToDecimal m) =
      some ((formatSemver v).data ++ devSep, natToDecimal m) :=
    devMatch_adv _ _ (formatSemver_mem v) (formatSemver_data_ne_nil v)
      (natToDecimal_ne_nil m) (natToDecimal_all m)
  unfold devAdvance
  rw [devCandidate_data, hm]
  apply String.ext
  rw [devCandidate_data]
  dsimp only
  rw [digitsToNat_natToDecimal]

theorem devCandidate_iterate (v : Semver) (m : Nat) :
    ∀ k : Nat, devAdvance^[k] (formatSemver v ++ "-develop." ++ natDecimalStr m) =
      formatSemver v ++ "-develop." ++ natDecimalStr (m + k) := by
  intro k
  induction k with
  | zero => simp
  | succ k ih =>
    rw [Function.iterate_succ_apply', ih, devAdvance_step, Nat.add_assoc]

theorem bumpForUniqueness_some_iterate (te : String → Bool) (bump : String → String) :
    ∀ (n : Nat) (v r : String), bumpForUniqueness te bump n v = some r →
      ∃ k, r = bump^[k] v := by
  intro n
  induction n with
  | zero =>
    intro v r h
    cases hte : te v
    · simp only [bumpForUniqueness, hte, Bool.false_eq_true, if_false,
        Option.some.injEq] at h
      exact ⟨0, h.symm⟩
    · simp [bumpForUniqueness, hte] at h
  | succ n ih =>
    intro v r h
    cases hte : te v
    · simp only [bumpForUniqueness, hte, Bool.false_eq_true, if_false,
        Option.some.injEq] at h
      exact ⟨0, h.symm⟩
    · simp only [bumpForUniqueness, hte, if_true] at h
      obtain ⟨k, hk⟩ := ih (bump v) r h
      exact ⟨k + 1, by rw [hk, Function.iterate_succ_apply]⟩

theorem parseSemver_complete {s : String} {d1 d2 d3 : List Char}
    (hne1 : d1 ≠ []) (hne2 : d2 ≠ []) (hne3 : d3 ≠ [])
    (g1 : d1.all Char.isDigit = true) (g2 : d2.all Char.isDigit = true)
    (g3 : d3.all Char.isDigit = true)
    (hdata : (jsTrim s).data = d1 ++ '.' :: (d2 ++ '.' :: d3)) :
    parseSemver (some s) = some ⟨digitsToNat d1, digitsToNat d2, digitsToNat d3⟩ := by
  have hs : s ≠ "" := by
    intro he
    subst he
    rw [show jsTrim "" = "" from rfl] at hdata
    cases d1 with
    | nil => exact hne1 rfl
    | cons a t => simp at hdata
  simp only [parseSemver, if_neg hs]
  rw [hdata, semverGroups_complete d1 d2 d3 hne1 hne2 hne3 g1 g2 g3]

theorem parseSemver_sound {s : String} {v : Semver}
    (h : parseSemver (some s) = some v) :
    s ≠ "" ∧ ∃ d1 d2 d3 : List Char,
      d1 ≠ [] ∧ d2 ≠ [] ∧ d3 ≠ [] ∧
      d1.all Char.isDigit = true ∧ d2.all Char.isDigit = true ∧
      d3.all Char.isDigit = true ∧
      (jsTrim s).data = d1 ++ '.' :: (d2 ++ '.' :: d3) ∧
      v = ⟨digitsToNat d1, digitsToNat d2, digitsToNat d3⟩ := by
  simp only [parseSemver] at h
  by_cases hs : s = ""
  · rw [if_pos hs] at h
    exact absurd h (by simp)
  rw [if_neg hs] at h
  refine ⟨hs, ?_⟩
  cases hg : semverGroups (jsTrim s).data with
  | none => rw [hg] at h; exact absurd h (by simp)
  | some t =>
    obtain ⟨d1, d2, d3⟩ := t
    rw [hg] at h
    simp only [Option.some.injEq] at h
    obtain ⟨hcs, hne1, hne2, hne3, g1, g2, g3⟩ := semverGroups_sound hg
    exact ⟨d1, d2, d3, hne1, hne2, hne3, g1, g2, g3, hcs, h.symm⟩

/-! ## Claim theorems -/

/-- C1: for every `lastTag` and upgrade kind, `computeNextMainVersion`
parses `lastTag` (base `{0,1,0}` when the parse is absent) and returns
exactly `{major+1,0,0}` for MAJOR, `{major,minor+1,0}` for MINOR, and
`{major,minor,patch+1}` for PATCH and every unrecognized kind; including
the spec's six concrete examples. -/
theorem claim1 (lastTag kind : Option String) :
    (normalizeUpgradeType kind = UpgradeType.MAJOR →
      computeNextMainVersion lastTag kind =
        ⟨((parseSemver lastTag).getD ⟨0, 1, 0⟩).major + 1, 0, 0⟩) ∧
    (normalizeUpgradeType kind = UpgradeType.MINOR →
      computeNextMainVersion lastTag kind =
        ⟨((parseSemver lastTag).getD ⟨0, 1, 0⟩).major,
          ((parseSemver lastTag).getD ⟨0, 1, 0⟩).minor + 1, 0⟩) ∧
    (normalizeUpgradeType kind = UpgradeType.PATCH →
      computeNextMainVersion lastTag kind =
        ⟨((parseSemver lastTag).getD ⟨0, 1, 0⟩).major,
          ((parseSemver lastTag).getD ⟨0, 1, 0⟩).minor,
          ((parseSemver lastTag).getD ⟨0, 1, 0⟩).patch + 1⟩) ∧
    computeNextMainVersion (some "2.3.4") (some "MAJOR") = ⟨3, 0, 0⟩ ∧
    computeNextMainVersion (some "2.3.4") (some "MINOR") = ⟨2, 4, 0⟩ ∧
    computeNextMainVersion (some "2.3.4") (some "garbage") = ⟨2, 3, 5⟩ ∧
    computeNextMainVersion none (some "MAJOR") = ⟨1, 0, 0⟩ ∧
    computeNextMainVersion none (some "MINOR") = ⟨0, 2, 0⟩ ∧
    computeNextMainVersion none (some "PATCH") = ⟨0, 1, 1⟩ := by
  refine ⟨?_, ?_, ?_, by decide, by decide, by decide, by decide, by decide, by decide⟩ <;>
    intro h <;> simp [computeNextMainVersion, h]

/-- Witness for C1: the MINOR rule applied at a concrete input. -/
theorem claim1_witness :
    computeNextMainVersion (some "5.6.7") (some "minor") = ⟨5, 7, 0⟩ := by
  have h := (claim1 (some "5.6.7") (some "minor")).2.1 (by decide)
  rw [h]
  decide

/-- C3: the uniqueness loop returns the first element of the advance
sequence on which `tagExists` is false; it terminates (any fuel of at
least the least free index suffices) under the precondition that some
iterate is free. -/
theorem claim3 (te : String → Bool) (bump : String → String) (v : String) (k : Nat)
    (hfree : te (bump^[k] v) = false)
    (hbusy : ∀ j, j < k → te (bump^[j] v) = true) :
    ∀ n, k ≤ n → bumpForUniqueness te bump n v = some (bump^[k] v) := by
  induction k generalizing v with
  | zero =>
    intro n _
    simp only [Function.iterate_zero_apply] at hfree
    cases n <;> simp [bumpForUniqueness, hfree]
  | succ k ih =>
    intro n hn
    have h0 : te v = true := by simpa using hbusy 0 (by omega)
    cases n with
    | zero => omega
    | succ m =>
      simp only [bumpForUniqueness, h0, if_true]
      have hfree2 : te (bump^[k] (bump v)) = false := by
        rw [← Function.iterate_succ_apply]
        exact hfree
      have hbusy2 : ∀ j, j < k → te (bump^[j] (bump v)) = true := by
        intro j hj
        rw [← Function.iterate_succ_apply]
        exact hbusy (j + 1) (by omega)
      rw [ih (bump v) hfree2 hbusy2 m (by omega), Function.iterate_succ_apply]

/-- Witness for C3: tags 1.2.1 and 1.2.2 exist, the first candidate is
1.2.1, and the loop returns 1.2.3. -/
theorem claim3_witness :
    bumpForUniqueness (fun s => s == "1.2.1" || s == "1.2.2") mainAdvance 2 "1.2.1" =
      some "1.2.3" := by
  have h := claim3 (fun s => s == "1.2.1" || s == "1.2.2") mainAdvance "1.2.1" 2
    (by decide) (by decide) 2 (by omega)
  rw [h]
  decide

/-- C4: when the tag-store query rejects, `tagExists` returns `false`
(the failure is absorbed, never propagated). -/
theorem claim4 (query : String → StoreResult) (tag : String)
    (h : query tag = StoreResult.failure) : tagExists query tag = false := by
  simp [tagExists, h]

/-- Witness for C4 with an always-failing store. -/
theorem claim4_witness : tagExists (fun _ => StoreResult.failure) "1.0.0" = false :=
  claim4 (fun _ => StoreResult.failure) "1.0.0" rfl

/-- C7 counterexample: the input `" main"` is not the exact string
`"main"`, yet the dispatcher selects the main-line path, because `run`
trims the input before comparing. -/
theorem claim7_counterexample :
    dispatchPath " main" = RunPath.mainLine ∧ " main" ≠ "main" := by
  decide

/-- C7 as amended: the dispatcher selects the main-line path exactly when
the trimmed `baseBranch` equals `"main"` — the comparison itself is exact,
with no case folding and no alias list. -/
theorem claim7_amended (b : String) :
    dispatchPath b = RunPath.mainLine ↔ jsTrim b = "main" := by
  unfold dispatchPath
  by_cases h : jsTrim b = "main" <;> simp [h]

/-- Witness for the amended C7. -/
theorem claim7_witness : dispatchPath " main " = RunPath.mainLine :=
  (claim7_amended " main ").mpr (by decide)

/-- C8 counterexample: with `baseBranch = " main"` (a value other than
`"main"`), two runs that differ only in `lastTag` produce different
outputs, because the trimmed branch takes the main-line path. -/
theorem claim8_counterexample :
    " main" ≠ "main" ∧
    runVersion (fun _ => StoreResult.failure) 0 " main" none (some "1.0.0") none none ≠
      runVersion (fun _ => StoreResult.failure) 0 " main" none (some "2.0.0") none none := by
  decide

/-- C8 as amended: when the trimmed `baseBranch` is `"main"` the output
ignores `lastMainTag` and `lastDevelopTag`; when the trimmed branch is
anything else the output ignores `upgradeType` and `lastTag`. -/
theorem claim8_amended (q : String → StoreResult) (fuel : Nat) (bb : String)
    (ut lt lmt ldt ut2 lt2 lmt2 ldt2 : Option String) :
    (jsTrim bb = "main" →
      runVersion q fuel bb ut lt lmt ldt = runVersion q fuel bb ut lt lmt2 ldt2) ∧
    (jsTrim bb ≠ "main" →
      runVersion q fuel bb ut lt lmt ldt = runVersion q fuel bb ut2 lt2 lmt ldt) := by
  constructor <;> intro h <;> simp [runVersion, dispatchPath, h]

/-- Witness for the amended C8 on both branches. -/
theorem claim8_witness :
    runVersion (fun _ => StoreResult.failure) 1 "main" none (some "1.0.0") (some "9.9.9")
        (some "9.9.9-develop.1") =
      runVersion (fun _ => StoreResult.failure) 1 "main" none (some "1.0.0") none none ∧
    runVersion (fun _ => StoreResult.failure) 1 "develop" (some "MAJOR") (some "9.9.9")
        (some "1.2.0") (some "1.2.0-develop.4") =
      runVersion (fun _ => StoreResult.failure) 1 "develop" none none (some "1.2.0")
        (some "1.2.0-develop.4") :=
  ⟨(claim8_amended (fun _ => StoreResult.failure) 1 "main" none (some "1.0.0") (some "9.9.9")
      (some "9.9.9-develop.1") none none none none).1 (by decide),
    (claim8_amended (fun _ => StoreResult.failure) 1 "develop" (some "MAJOR") (some "9.9.9")
      (some "1.2.0") (some "1.2.0-develop.4") none none none none).2 (by decide)⟩

/-- C5 counterexample: the leading-zero string "01.2.3" parses
successfully to {1,2,3} instead of failing to absent. -/
theorem claim5_counterexample :
    parseSemver (some "01.2.3") = some ⟨1, 2, 3⟩ ∧
    parseSemver (some "01.2.3") ≠ none := by
  decide

/-- C5 as amended: `parseSemver` accepts exactly the strings whose trimmed
form is three dot-separated nonempty digit runs spanning the whole input;
leading zeros are accepted and each component takes its numeric value, so
"01.2.3" parses to {1,2,3}. -/
theorem claim5_amended :
    (∀ (s : String) (v : Semver),
      parseSemver (some s) = some v ↔
        (s ≠ "" ∧ ∃ d1 d2 d3 : List Char,
          d1 ≠ [] ∧ d2 ≠ [] ∧ d3 ≠ [] ∧
          d1.all Char.isDigit = true ∧ d2.all Char.isDigit = true ∧
          d3.all Char.isDigit = true ∧
          (jsTrim s).data = d1 ++ '.' :: (d2 ++ '.' :: d3) ∧
          v = ⟨digitsToNat d1, digitsToNat d2, digitsToNat d3⟩)) ∧
    parseSemver (some "01.2.3") = some ⟨1, 2, 3⟩ := by
  refine ⟨fun s v => ⟨fun h => parseSemver_sound h, fun h => ?_⟩, by decide⟩
  obtain ⟨hs, d1, d2, d3, hne1, hne2, hne3, g1, g2, g3, hdata, rfl⟩ := h
  exact parseSemver_complete hne1 hne2 hne3 g1 g2 g3 hdata

/-- Witness for the amended C5 at a concrete accepted string. -/
theorem claim5_witness : parseSemver (some "7.8.9") = some ⟨7, 8, 9⟩ :=
  (claim5_amended.1 "7.8.9" ⟨7, 8, 9⟩).mpr
    ⟨by decide, ['7'], ['8'], ['9'], by decide, by decide, by decide, by decide,
      by decide, by decide, by decide, by decide⟩

/-- C6 counterexample: `parseSemver` accepts "01.2.3", but the round trip
formats to "1.2.3", which is not the trimmed input. -/
theorem claim6_counterexample :
    parseSemver (some "01.2.3") = some ⟨1, 2, 3⟩ ∧
    formatSemver ⟨1, 2, 3⟩ = "1.2.3" ∧
    jsTrim "01.2.3" = "01.2.3" ∧
    formatSemver ⟨1, 2, 3⟩ ≠ jsTrim "01.2.3" := by
  decide

/-- C6 as amended: the parse/format round trip reproduces the trimmed
input character for character for every accepted string whose components
carry no leading zeros (trimmed form canonical); with leading zeros the
parse still succeeds but formatting canonicalizes. -/
theorem claim6_amended (s : String) (a b c : Nat)
    (h : jsTrim s = formatSemver ⟨a, b, c⟩) :
    parseSemver (some s) = some ⟨a, b, c⟩ ∧ formatSemver ⟨a, b, c⟩ = jsTrim s := by
  refine ⟨?_, h.symm⟩
  have hdata : (jsTrim s).data =
      natToDecimal a ++ '.' :: (natToDecimal b ++ '.' :: natToDecimal c) := by
    rw [h, formatSemver_data]
  have hp := parseSemver_complete (natToDecimal_ne_nil a) (natToDecimal_ne_nil b)
    (natToDecimal_ne_nil c) (natToDecimal_all a) (natToDecimal_all b)
    (natToDecimal_all c) hdata
  simpa [digitsToNat_natToDecimal] using hp

/-- Witness for the amended C6 on a padded canonical input. -/
theorem claim6_witness :
    parseSemver (some " 1.2.3 ") = some ⟨1, 2, 3⟩ ∧
    formatSemver ⟨1, 2, 3⟩ = jsTrim " 1.2.3 " :=
  claim6_amended " 1.2.3 " 1 2 3 (by decide)

/-- C9: `parseSemver` is total, giving absent on null input, on the empty
string, and on every string whose trimmed form does not have the exact
X.Y.Z shape; unrecognized upgrade kinds (trimmed, uppercased, not MAJOR or
MINOR) are silently normalized to PATCH. -/
theorem claim9 :
    parseSemver none = none ∧
    parseSemver (some "") = none ∧
    (∀ s : String, ¬ semverShape (jsTrim s).data → parseSemver (some s) = none) ∧
    (∀ x : String,
      String.mk ((jsTrim x).data.map Char.toUpper) ≠ "MAJOR" →
      String.mk ((jsTrim x).data.map Char.toUpper) ≠ "MINOR" →
      normalizeUpgradeType (some x) = UpgradeType.PATCH) := by
  refine ⟨rfl, rfl, ?_, ?_⟩
  · intro s hshape
    cases hp : parseSemver (some s) with
    | none => rfl
    | some v =>
      obtain ⟨-, d1, d2, d3, hne1, hne2, hne3, g1, g2, g3, hdata, -⟩ :=
        parseSemver_sound hp
      exact absurd ⟨d1, d2, d3, hne1, hne2, hne3, g1, g2, g3, hdata⟩ hshape
  · intro x h1 h2
    by_cases hx : x = ""
    · subst hx; decide
    · unfold normalizeUpgradeType
      dsimp only
      rw [if_neg hx, if_neg h1, if_neg h2]

/-- Witness for C9: a malformed tag and an unrecognized kind. -/
theorem claim9_witness :
    parseSemver (some "1.2") = none ∧
    normalizeUpgradeType (some "garbage") = UpgradeType.PATCH := by
  constructor
  · exact claim9.2.2.1 "1.2" (fun h => absurd (dotCount_shape h) (by decide))
  · exact claim9.2.2.2 "garbage" (by decide) (by decide)

/-- C2: `computeNextPreReleaseVersion` returns the parsed `lastMainTag`
base (default `{0,1,0}`), never incremented; the build is N+1 exactly when
the trimmed `lastDevelopTag` is the formatted base followed by
`-develop.` and a digit run of value N (base verbatim), and 1 otherwise. -/
theorem claim2 (lmt ldt : Option String) :
    (computeNextPreReleaseVersion lmt ldt).1 = (parseSemver lmt).getD ⟨0, 1, 0⟩ ∧
    1 ≤ (computeNextPreReleaseVersion lmt ldt).2 ∧
    (∀ ds : List Char, ds ≠ [] → ds.all Char.isDigit = true →
      jsTrim (ldt.getD "") =
        formatSemver ((parseSemver lmt).getD ⟨0, 1, 0⟩) ++ "-develop." ++ String.mk ds →
      (computeNextPreReleaseVersion lmt ldt).2 = digitsToNat ds + 1) ∧
    ((∀ ds : List Char, ¬(ds ≠ [] ∧ ds.all Char.isDigit = true ∧
        jsTrim (ldt.getD "") =
          formatSemver ((parseSemver lmt).getD ⟨0, 1, 0⟩) ++ "-develop." ++ String.mk ds)) →
      (computeNextPreReleaseVersion lmt ldt).2 = 1) := by
  have hr : (computeNextPreReleaseVersion lmt ldt).2 =
      (devTagMatch ((parseSemver lmt).getD ⟨0, 1, 0⟩) (jsTrim (ldt.getD ""))).getD 0 + 1 :=
    rfl
  refine ⟨rfl, by omega, ?_, ?_⟩
  · intro ds hne hdig heq
    have hd : devTagMatch ((parseSemver lmt).getD ⟨0, 1, 0⟩)
        (formatSemver ((parseSemver lmt).getD ⟨0, 1, 0⟩) ++ "-develop." ++ String.mk ds) =
        some (digitsToNat ds) := by
      unfold devTagMatch
      have hdata : (formatSemver ((parseSemver lmt).getD ⟨0, 1, 0⟩) ++ "-develop." ++
          String.mk ds).data =
          (formatSemver ((parseSemver lmt).getD ⟨0, 1, 0⟩) ++ "-develop.").data ++ ds := by
        rw [strData_append]
      rw [hdata, dropExact_self_append]
      simp [hne, hdig]
    rw [hr, heq, hd]
    rfl
  · intro hno
    rw [hr]
    cases hd : devTagMatch ((parseSemver lmt).getD ⟨0, 1, 0⟩) (jsTrim (ldt.getD "")) with
    | none => rfl
    | some n =>
      exfalso
      unfold devTagMatch at hd
      cases hdrop : dropExact
          (formatSemver ((parseSemver lmt).getD ⟨0, 1, 0⟩) ++ "-develop.").data
          (jsTrim (ldt.getD "")).data with
      | none => rw [hdrop] at hd; exact absurd hd (by simp)
      | some rest =>
        rw [hdrop] at hd
        by_cases hrne : rest = []
        · simp [hrne] at hd
        by_cases hrd : rest.all Char.isDigit = true
        · have hseq : jsTrim (ldt.getD "") =
              formatSemver ((parseSemver lmt).getD ⟨0, 1, 0⟩) ++ "-develop." ++
                String.mk rest := by
            apply String.ext
            rw [strData_append, dropExact_eq_some _ _ _ hdrop]
          exact hno rest ⟨hrne, hrd, hseq⟩
        · simp [hrne, hrd] at hd

/-- Witness for C2: the spec's matched and base-mismatched examples. -/
theorem claim2_witness :
    (computeNextPreReleaseVersion (some "1.2.0") (some "1.2.0-develop.5")).1 = ⟨1, 2, 0⟩ ∧
    (computeNextPreReleaseVersion (some "1.2.0") (some "1.2.0-develop.5")).2 = 6 ∧
    (computeNextPreReleaseVersion (some "1.2.0") (some "1.1.0-develop.9")).2 = 1 := by
  refine ⟨?_, ?_, ?_⟩
  · rw [(claim2 (some "1.2.0") (some "1.2.0-develop.5")).1]
    decide
  · have h := (claim2 (some "1.2.0") (some "1.2.0-develop.5")).2.2.1 ['5']
      (by decide) (by decide) (by decide)
    rw [h]
    decide
  · apply (claim2 (some "1.2.0") (some "1.1.0-develop.9")).2.2.2
    intro ds hcontra
    obtain ⟨hne, hdig, heq⟩ := hcontra
    have hT : jsTrim ((some "1.1.0-develop.9").getD "") = "1.1.0-develop.9" := by decide
    rw [hT] at heq
    have hd := congrArg String.data heq
    rw [strData_append] at hd
    have hL : ("1.1.0-develop.9").data =
        ['1', '.', '1', '.', '0', '-', 'd', 'e', 'v', 'e', 'l', 'o', 'p', '.', '9'] := rfl
    have hP : (formatSemver ((parseSemver (some "1.2.0")).getD ⟨0, 1, 0⟩) ++
        "-develop.").data =
        ['1', '.', '2', '.', '0', '-', 'd', 'e', 'v', 'e', 'l', 'o', 'p', '.'] := by decide
    rw [hL, hP] at hd
    simp at hd

/-- C10: the initial pre-release candidate is the formatted base followed
by `-develop.` and a build of at least 1; every iterate of the pre-release
advance keeps the prefix byte for byte and increments only the trailing
build numeral by one; hence every emitted non-main version has the shape
`X.Y.Z-develop.b` with `b` at least 1. -/
theorem claim10 (lmt ldt lt ut : Option String) (q : String → StoreResult)
    (fuel : Nat) (bb : String) :
    1 ≤ (computeNextPreReleaseVersion lmt ldt).2 ∧
    (∀ k : Nat,
      devAdvance^[k]
          (formatSemver (computeNextPreReleaseVersion lmt ldt).1 ++ "-develop." ++
            natDecimalStr (computeNextPreReleaseVersion lmt ldt).2) =
        formatSemver (computeNextPreReleaseVersion lmt ldt).1 ++ "-develop." ++
          natDecimalStr ((computeNextPreReleaseVersion lmt ldt).2 + k)) ∧
    (∀ out : String, dispatchPath bb = RunPath.preRelease →
      runVersion q fuel bb ut lt lmt ldt = some out →
      ∃ b : Nat, 1 ≤ b ∧
        out = formatSemver (computeNextPreReleaseVersion lmt ldt).1 ++ "-develop." ++
          natDecimalStr b) := by
  have h1 : 1 ≤ (computeNextPreReleaseVersion lmt ldt).2 := by
    have hr : (computeNextPreReleaseVersion lmt ldt).2 =
        (devTagMatch ((parseSemver lmt).getD ⟨0, 1, 0⟩) (jsTrim (ldt.getD ""))).getD 0 + 1 :=
      rfl
    omega
  refine ⟨h1, fun k => devCandidate_iterate _ _ k, ?_⟩
  intro out hdisp hrun
  unfold runVersion at hrun
  rw [hdisp] at hrun
  dsimp only at hrun
  obtain ⟨k, hk⟩ := bumpForUniqueness_some_iterate _ _ _ _ _ hrun
  exact ⟨(computeNextPreReleaseVersion lmt ldt).2 + k, by omega,
    by rw [hk, devCandidate_iterate]⟩

/-- Witness for C10: a successful pre-release run emitting 0.1.0-develop.1. -/
theorem claim10_witness :
    ∃ b : Nat, 1 ≤ b ∧
      ("0.1.0-develop.1" : String) =
        formatSemver (computeNextPreReleaseVersion none none).1 ++ "-develop." ++
          natDecimalStr b :=
  (claim10 none none none none (fun _ => StoreResult.failure) 0 "develop").2.2
    "0.1.0-develop.1" (by decide) (by decide)
